import Mathlib

/-!
Verification development for the moving-average crossover backtester
(averageMoveTrader/averageMoveAlgorithm.py).

Modelling conventions.
A pandas float cell is modelled by `Option ℚ`: `none` is NaN (the missing
value), `some q` a finite value.  All quantities appearing in the program
are rational except the square roots occurring in the Sharpe ratio and the
annualised volatility, which are modelled over ℝ.  Float division by zero
(which would produce an IEEE infinity) is modelled as `none`; with the
positive closing prices of the data model it is never reached.

Python mutates DataFrame objects in place.  Every function that receives a
frame therefore returns, besides its result, the state of the argument
frame after the call (first component of the returned pair):
`calc_strategy_performance` copies its input, so the after-state equals the
input; `calculate_metrics` assigns new columns on the frame it was given,
so the after-state differs from the input.  A Python exception (KeyError,
IndexError) is modelled by `Except.error ()`.
-/

namespace AvgMove

/-- A pandas float cell: `none` models NaN, `some q` a finite value. -/
abbrev RatF := Option ℚ

/-- Float addition: NaN propagates. -/
def fadd : RatF → RatF → RatF
  | some a, some b => some (a + b)
  | _, _ => none

/-- Float subtraction: NaN propagates. -/
def fsub : RatF → RatF → RatF
  | some a, some b => some (a - b)
  | _, _ => none

/-- Float multiplication: NaN propagates. -/
def fmul : RatF → RatF → RatF
  | some a, some b => some (a * b)
  | _, _ => none

/-- Float division: NaN propagates.  A zero divisor would give an IEEE
infinity (or NaN for 0/0); both are modelled as `none`, and the zero-divisor
case is unreachable for the positive price series of the data model. -/
def fdiv : RatF → RatF → RatF
  | some a, some b => if b = 0 then none else some (a / b)
  | _, _ => none

/-- Float strict greater-than: any comparison with NaN is False. -/
def fgt : RatF → RatF → Bool
  | some a, some b => decide (b < a)
  | _, _ => false

/-- `Series.shift(1)`: NaN in the first slot, every other entry moves one
step down; the last entry is dropped (length preserved). -/
def fshift : List RatF → List RatF
  | [] => []
  | a :: r => none :: (a :: r).dropLast

/-- Helper for `Series.diff()`: difference of each entry with its
predecessor. -/
def fdiffAux : RatF → List RatF → List RatF
  | _, [] => []
  | prev, b :: r => fsub b prev :: fdiffAux b r

/-- `Series.diff()`: NaN in the first slot, then entry minus previous
entry. -/
def fdiff : List RatF → List RatF
  | [] => []
  | a :: r => none :: fdiffAux a r

/-- `Series.rolling(window=w).mean()` on an all-finite series: entry `t` is
the mean of the trailing `w` values when at least `w` values are available,
NaN otherwise. -/
def rollingMean (w : ℕ) (xs : List ℚ) : List RatF :=
  (List.range xs.length).map fun t =>
    if w ≤ t + 1 then some ((((xs.drop (t + 1 - w)).take w).sum) / (w : ℚ)) else none

/-- The Signal column: 0.0 everywhere, overwritten on indices
`long_window, long_window+1, ...` by `np.where(Fast_MA > Slow_MA, 1.0, 0.0)`
(source lines 31-34).  Comparisons involving NaN are False. -/
def signalList (closes : List ℚ) (short_window long_window : ℕ) : List ℚ :=
  (List.range closes.length).map fun t =>
    if long_window ≤ t then
      if fgt ((rollingMean short_window closes).getD t none)
             ((rollingMean long_window closes).getD t none) then 1 else 0
    else 0

/-- The Crossover column: `Signal.diff()` (source line 37). -/
def crossoverList (closes : List ℚ) (short_window long_window : ℕ) : List RatF :=
  fdiff ((signalList closes short_window long_window).map some)

/-- The Position column: `Signal.shift(1)` (source line 40). -/
def positionList (closes : List ℚ) (short_window long_window : ℕ) : List RatF :=
  fshift ((signalList closes short_window long_window).map some)

/-- `Series.pct_change()`: NaN at index 0, else `close[t]/close[t-1] - 1`.
A zero previous close would give an IEEE infinity, modelled `none`;
unreachable since the data model posits positive closes. -/
def pct_change (xs : List ℚ) : List RatF :=
  (List.range xs.length).map fun t =>
    if t = 0 then none
    else if xs.getD (t - 1) 0 = 0 then none
    else some (xs.getD t 0 / xs.getD (t - 1) 0 - 1)

/-- The Strategy_Return column computed from a daily-return column and a
Position column: `Daily_Return * Position.shift(1)` (source line 56). -/
def strategyReturnOf (dr pos : List RatF) : List RatF :=
  List.zipWith fmul dr (fshift pos)

/-- The Strategy_Return column of the pipeline: daily returns of the closes
times the twice-shifted signal. -/
def strategyReturnList (closes : List ℚ) (short_window long_window : ℕ) : List RatF :=
  strategyReturnOf (pct_change closes) (positionList closes short_window long_window)

/-- Helper for `Series.cumprod()` carrying the running product of the
non-NaN entries seen so far. -/
def cumprodAux : ℚ → List RatF → List RatF
  | _, [] => []
  | acc, none :: r => none :: cumprodAux acc r
  | acc, some x :: r => some (acc * x) :: cumprodAux (acc * x) r

/-- `Series.cumprod()` (default `skipna=True`): NaN entries stay NaN, every
other entry is the product of the non-NaN entries up to it. -/
def cumprodF (xs : List RatF) : List RatF := cumprodAux 1 xs

/-- Helper for `Series.cummax()` carrying the running maximum of the
non-NaN entries seen so far. -/
def cummaxAux : Option ℚ → List RatF → List RatF
  | _, [] => []
  | cur, none :: r => none :: cummaxAux cur r
  | cur, some x :: r =>
    match cur with
    | none => some x :: cummaxAux (some x) r
    | some b => some (max b x) :: cummaxAux (some (max b x)) r

/-- `Series.cummax()` (default `skipna=True`). -/
def cummaxF (xs : List RatF) : List RatF := cummaxAux none xs

/-- `(1 + series).cumprod()` (source lines 59-60). -/
def cumProd1 (xs : List RatF) : List RatF := cumprodF (xs.map (fadd (some 1)))

/-- The Drawdown column from a cumulative-strategy column:
`(Cumulative_Max - Cumulative_Strategy) / Cumulative_Max`
(source lines 77-78). -/
def drawdownOf (cums : List RatF) : List RatF :=
  List.zipWith (fun mx c => fdiv (fsub mx c) mx) (cummaxF cums) cums

/-- `Series.max()` (default `skipna=True`): maximum of the non-NaN entries,
NaN when there are none. -/
def fmax (xs : List RatF) : RatF :=
  match xs.filterMap id with
  | [] => none
  | y :: ys => some (ys.foldl max y)

/-- `Series.mean()` (default `skipna=True`): mean of the non-NaN entries,
NaN when there are none. -/
def fmean (xs : List RatF) : RatF :=
  if (xs.filterMap id).length = 0 then none
  else some ((xs.filterMap id).sum / ((xs.filterMap id).length : ℚ))

/-- The square of `Series.std()` (sample statistic, `ddof=1`, skipna):
NaN when fewer than two non-NaN entries.  The standard deviation itself is
`Real.sqrt` of this value. -/
def fvar (xs : List RatF) : RatF :=
  if (xs.filterMap id).length < 2 then none
  else some ((((xs.filterMap id).map fun x =>
      (x - (xs.filterMap id).sum / ((xs.filterMap id).length : ℚ)) ^ 2).sum)
    / (((xs.filterMap id).length : ℚ) - 1))

/-- `Series.cov` (sample covariance over the rows where both entries are
non-NaN, `ddof=1`). -/
def fcov (xs ys : List RatF) : RatF :=
  let p := (xs.zip ys).filterMap fun q =>
    match q with
    | (some a, some b) => some ((a, b) : ℚ × ℚ)
    | _ => none
  if p.length < 2 then none
  else
    let mx := (p.map Prod.fst).sum / (p.length : ℚ)
    let my := (p.map Prod.snd).sum / (p.length : ℚ)
    some ((p.map fun q => (q.1 - mx) * (q.2 - my)).sum / ((p.length : ℚ) - 1))

open Classical in
/-- The annualised Sharpe ratio (source lines 66-74):
NaN when the standard deviation compares equal to 0, otherwise
`(mean * 252) / (std * sqrt 252)`.  A NaN mean or NaN standard deviation
propagates to a NaN result, exactly as the float expression does. -/
noncomputable def annualised_sharpe (sr : List RatF) : Option ℝ :=
  match fmean sr, fvar sr with
  | some m, some v =>
    if Real.sqrt (v : ℝ) = 0 then none
    else some (((m : ℝ) * 252) / (Real.sqrt (v : ℝ) * Real.sqrt 252))
  | _, _ => none

/-- The Calmar ratio (source lines 93-98): NaN when the maximum drawdown
compares equal to 0 (a NaN drawdown fails that comparison and then
propagates through the division), otherwise
`(mean * 252) / max_drawdown`. -/
def calmarOf (sr : List RatF) (mdd : RatF) : RatF :=
  match mdd with
  | none => none
  | some d => if d = 0 then none else fdiv (fmul (fmean sr) (some 252)) (some d)

/-- A pandas DataFrame as used by the program: the Close column is the
always-present price series; every derived column is absent (`none`) until
some call assigns it. -/
structure Frame where
  close : List ℚ
  fast_ma : Option (List RatF) := none
  slow_ma : Option (List RatF) := none
  signal : Option (List RatF) := none
  crossover : Option (List RatF) := none
  position : Option (List RatF) := none
  daily_return : Option (List RatF) := none
  strategy_return : Option (List RatF) := none
  cumulative_benchmark : Option (List RatF) := none
  cumulative_strategy : Option (List RatF) := none
  cumulative_max : Option (List RatF) := none
  drawdown : Option (List RatF) := none
  deriving DecidableEq

/-- A frame holding only a Close column, as delivered by the price-history
provider. -/
def Frame.ofClose (closes : List ℚ) : Frame := { close := closes }

/-- The dictionary returned by `calculate_metrics` (source lines 100-107). -/
structure Metrics where
  total_strategy_return : RatF
  total_benchmark_return : RatF
  sharpe : Option ℝ
  max_drawdown : RatF
  beta : RatF
  annualised_alpha : RatF
  annualised_volatility : Option ℝ
  calmar_ratio : RatF

/-- The number of +1 crossover events (buy markers) in a column. -/
def countPos (xs : List RatF) : ℕ := xs.countP fun x => decide (x = some (1 : ℚ))

/-- The number of -1 crossover events (sell markers) in a column. -/
def countNeg (xs : List RatF) : ℕ := xs.countP fun x => decide (x = some (-1 : ℚ))

/-- The state of the frame passed to `calculate_metrics` after a successful
call: the six derived columns have been assigned in place. -/
def metricsFrame (data : Frame) (pos : List RatF) : Frame :=
  { data with
    daily_return := some (pct_change data.close)
    strategy_return := some (strategyReturnOf (pct_change data.close) pos)
    cumulative_benchmark := some (cumProd1 (pct_change data.close))
    cumulative_strategy := some (cumProd1 (strategyReturnOf (pct_change data.close) pos))
    cumulative_max := some (cummaxF (cumProd1 (strategyReturnOf (pct_change data.close) pos)))
    drawdown := some (drawdownOf (cumProd1 (strategyReturnOf (pct_change data.close) pos))) }

/-- The metrics dictionary built by a successful `calculate_metrics` call
on a frame with Close column `closes` and Position column `pos`
(source lines 100-107). -/
noncomputable def metricsDict (closes : List ℚ) (pos : List RatF) : Metrics :=
  let dr := pct_change closes
  let sr := strategyReturnOf dr pos
  let mdd := fmax (drawdownOf (cumProd1 sr))
  let b := fdiv (fcov sr dr) (fvar dr)
  { total_strategy_return := fsub ((cumProd1 sr).getLast?.getD none) (some 1)
    total_benchmark_return := fsub ((cumProd1 dr).getLast?.getD none) (some 1)
    sharpe := annualised_sharpe sr
    max_drawdown := mdd
    beta := b
    annualised_alpha := fmul (fsub (fmean sr) (fmul b (fmean dr))) (some 252)
    annualised_volatility := (fvar sr).map fun v => Real.sqrt (v : ℝ) * Real.sqrt 252
    calmar_ratio := calmarOf sr mdd }

/-- `calc_strategy_performance(data, short_window, long_window)` (source
lines 9-42).  It copies `data` (line 24) and assigns the five derived
columns on the copy, so the state of the argument after the call (first
component) is the unchanged input, and the result (second component) is the
enriched copy. -/
def calc_strategy_performance (data : Frame) (short_window long_window : ℕ) :
    Frame × Frame :=
  (data,
   { data with
     fast_ma := some (rollingMean short_window data.close)
     slow_ma := some (rollingMean long_window data.close)
     signal := some ((signalList data.close short_window long_window).map some)
     crossover := some (crossoverList data.close short_window long_window)
     position := some (positionList data.close short_window long_window) })

/-- `calculate_metrics(data)` (source lines 44-107).  The function assigns
its intermediate columns on the frame it is given (no copy), so the first
component records the argument frame after the call.  `Except.error ()`
models a raised exception: a KeyError when the Position column is missing
(line 56, after Daily_Return was already assigned), and the IndexError of
`iloc[-1]` on an empty series (line 63, after the four return columns were
already assigned but before Cumulative_Max and Drawdown are). -/
noncomputable def calculate_metrics (data : Frame) : Frame × Except Unit Metrics :=
  let dr := pct_change data.close
  let d1 := { data with daily_return := some dr }
  match data.position with
  | none => (d1, Except.error ())
  | some pos =>
    let sr := strategyReturnOf dr pos
    let cumb := cumProd1 dr
    let cums := cumProd1 sr
    let d2 := { d1 with
      strategy_return := some sr
      cumulative_benchmark := some cumb
      cumulative_strategy := some cums }
    match cums.getLast?, cumb.getLast? with
    | some lastS, some lastB =>
      let dd := drawdownOf cums
      let mdd := fmax dd
      let b := fdiv (fcov sr dr) (fvar dr)
      let d3 := { d2 with cumulative_max := some (cummaxF cums), drawdown := some dd }
      (d3, Except.ok
        { total_strategy_return := fsub lastS (some 1)
          total_benchmark_return := fsub lastB (some 1)
          sharpe := annualised_sharpe sr
          max_drawdown := mdd
          beta := b
          annualised_alpha := fmul (fsub (fmean sr) (fmul b (fmean dr))) (some 252)
          annualised_volatility := (fvar sr).map fun v => Real.sqrt (v : ℝ) * Real.sqrt 252
          calmar_ratio := calmarOf sr mdd })
    | _, _ => (d2, Except.error ())

/-- `range(10, 61, 5)` (source line 126). -/
def short_window_range : List ℕ := List.range' 10 11 5

/-- `range(100, 251, 10)` (source line 127). -/
def long_window_range : List ℕ := List.range' 100 16 10

/-- The candidate pairs in the order the two nested loops of
`optimise_strategy` produce them: short outer, long inner, both
ascending. -/
def window_grid : List (ℕ × ℕ) :=
  short_window_range.bind fun s => long_window_range.map fun l => (s, l)

open Classical in
/-- The loop body of `optimise_strategy` (source lines 129-145).  State:
the frame `data` (threaded because each iteration calls
`calc_strategy_performance` on it and Python could in principle see a
mutation), the incumbent pair and the incumbent Sharpe
(`⊥` models the initial `-np.inf`).  A pair with `short >= long` is
skipped; a NaN Sharpe fails the float comparison and keeps the incumbent;
only a strictly greater Sharpe replaces it.  An exception from
`calculate_metrics` aborts the loop. -/
noncomputable def optLoop :
    Frame → List (ℕ × ℕ) → (ℕ × ℕ) → WithBot ℝ → Frame × Except Unit (ℕ × ℕ)
  | data, [], best_params, _ => (data, Except.ok best_params)
  | data, c :: rest, best_params, best_sharpe =>
    if c.2 ≤ c.1 then optLoop data rest best_params best_sharpe
    else
      let r := calc_strategy_performance data c.1 c.2
      match (calculate_metrics r.2).2 with
      | Except.error e => (r.1, Except.error e)
      | Except.ok m =>
        match m.sharpe with
        | none => optLoop r.1 rest best_params best_sharpe
        | some s =>
          if best_sharpe < (s : WithBot ℝ) then optLoop r.1 rest c (s : WithBot ℝ)
          else optLoop r.1 rest best_params best_sharpe

/-- `optimise_strategy(data)` (source lines 109-149): sweep the grid
starting from incumbent Sharpe `-np.inf` and sentinel pair `(0, 0)`. -/
noncomputable def optimise_strategy (data : Frame) : Frame × Except Unit (ℕ × ℕ) :=
  optLoop data window_grid (0, 0) ⊥

/-- Positional cell access on a float column, NaN out of range (used only
at in-range positions in the statements below). -/
def idx (xs : List RatF) (t : ℕ) : RatF := xs.getD t none

/-- The observable `metrics['Sharpe Ratio']` of one optimiser candidate:
the Sharpe of the metrics computed on the frame derived from `data` with
the windows of `c`, or a raised exception. -/
noncomputable def sharpeOf (data : Frame) (c : ℕ × ℕ) : Except Unit (Option ℝ) :=
  ((calculate_metrics (calc_strategy_performance data c.1 c.2).2).2).map Metrics.sharpe

/-! ### Length bookkeeping: every derived column has the length of the
price series, as every pandas column of one frame does. -/

@[simp]
theorem rollingMean_length (w : ℕ) (xs : List ℚ) :
    (rollingMean w xs).length = xs.length := by
  simp [rollingMean]

@[simp]
theorem signalList_length (closes : List ℚ) (s l : ℕ) :
    (signalList closes s l).length = closes.length := by
  simp [signalList]

@[simp]
theorem pct_change_length (xs : List ℚ) : (pct_change xs).length = xs.length := by
  simp [pct_change]

@[simp]
theorem fshift_length (xs : List RatF) : (fshift xs).length = xs.length := by
  cases xs with
  | nil => rfl
  | cons a r => simp [fshift]

@[simp]
theorem fdiffAux_length (p : RatF) (xs : List RatF) :
    (fdiffAux p xs).length = xs.length := by
  induction xs generalizing p with
  | nil => rfl
  | cons b r ih => simp [fdiffAux, ih]

@[simp]
theorem fdiff_length (xs : List RatF) : (fdiff xs).length = xs.length := by
  cases xs with
  | nil => rfl
  | cons a r => simp [fdiff]

@[simp]
theorem positionList_length (closes : List ℚ) (s l : ℕ) :
    (positionList closes s l).length = closes.length := by
  simp [positionList]

@[simp]
theorem crossoverList_length (closes : List ℚ) (s l : ℕ) :
    (crossoverList closes s l).length = closes.length := by
  simp [crossoverList]

@[simp]
theorem strategyReturnOf_length (dr pos : List RatF) :
    (strategyReturnOf dr pos).length = min dr.length pos.length := by
  simp [strategyReturnOf]

@[simp]
theorem strategyReturnList_length (closes : List ℚ) (s l : ℕ) :
    (strategyReturnList closes s l).length = closes.length := by
  simp [strategyReturnList]

@[simp]
theorem cumprodAux_length (acc : ℚ) (xs : List RatF) :
    (cumprodAux acc xs).length = xs.length := by
  induction xs generalizing acc with
  | nil => rfl
  | cons a r ih => cases a <;> simp [cumprodAux, ih]

@[simp]
theorem cumprodF_length (xs : List RatF) : (cumprodF xs).length = xs.length := by
  simp [cumprodF]

@[simp]
theorem cumProd1_length (xs : List RatF) : (cumProd1 xs).length = xs.length := by
  simp [cumProd1]

@[simp]
theorem cummaxAux_length (cur : Option ℚ) (xs : List RatF) :
    (cummaxAux cur xs).length = xs.length := by
  induction xs generalizing cur with
  | nil => rfl
  | cons a r ih => cases a <;> cases cur <;> simp [cummaxAux, ih]

@[simp]
theorem cummaxF_length (xs : List RatF) : (cummaxF xs).length = xs.length := by
  simp [cummaxF]

@[simp]
theorem drawdownOf_length (xs : List RatF) : (drawdownOf xs).length = xs.length := by
  simp [drawdownOf]

/-! ### Cell access lemmas. -/

theorem idx_eq_getElem? (xs : List RatF) (t : ℕ) : idx xs t = (xs[t]?).getD none :=
  List.getD_eq_getElem?_getD xs t none

theorem getElem?_map_range {α : Type} (f : ℕ → α) {n t : ℕ} (h : t < n) :
    ((List.range n).map f)[t]? = some (f t) := by
  simp [List.getElem?_map, List.getElem?_range h]

theorem idx_rollingMean (w : ℕ) (xs : List ℚ) {t : ℕ} (h : t < xs.length) :
    idx (rollingMean w xs) t =
      if w ≤ t + 1 then some ((((xs.drop (t + 1 - w)).take w).sum) / (w : ℚ))
      else none := by
  rw [idx_eq_getElem?, rollingMean, getElem?_map_range _ h]
  rfl

theorem signalList_getD (closes : List ℚ) (s l : ℕ) {t : ℕ} (h : t < closes.length) :
    (signalList closes s l).getD t 0 =
      if l ≤ t then
        if fgt ((rollingMean s closes).getD t none)
               ((rollingMean l closes).getD t none) then 1 else 0
      else 0 := by
  rw [List.getD_eq_getElem?_getD, signalList, getElem?_map_range _ h]
  rfl

theorem pct_change_getD (xs : List ℚ) {t : ℕ} (h : t < xs.length) :
    idx (pct_change xs) t =
      if t = 0 then none
      else if xs.getD (t - 1) 0 = 0 then none
      else some (xs.getD t 0 / xs.getD (t - 1) 0 - 1) := by
  rw [idx_eq_getElem?, pct_change, getElem?_map_range _ h]
  rfl

theorem idx_fshift (xs : List RatF) {t : ℕ} (ht : 0 < t) (h : t < xs.length) :
    idx (fshift xs) t = idx xs (t - 1) := by
  cases xs with
  | nil => simp at h
  | cons a r =>
    obtain ⟨k, rfl⟩ : ∃ k, t = k + 1 := ⟨t - 1, (Nat.succ_pred_eq_of_pos ht).symm⟩
    rw [idx_eq_getElem?, idx_eq_getElem?, fshift]
    simp only [List.getElem?_cons_succ, Nat.add_sub_cancel, List.getElem?_dropLast]
    rw [if_pos]
    simpa using Nat.lt_of_succ_lt_succ (by simpa using h)

theorem fshift_getElem?_zero (xs : List RatF) (h : xs ≠ []) :
    (fshift xs)[0]? = some none := by
  cases xs with
  | nil => exact absurd rfl h
  | cons a r => simp [fshift]

theorem idx_zipWith (f : RatF → RatF → RatF) (xs ys : List RatF) {t : ℕ}
    (hx : t < xs.length) (hy : t < ys.length) :
    idx (List.zipWith f xs ys) t = f (idx xs t) (idx ys t) := by
  rw [idx_eq_getElem?, idx_eq_getElem?, idx_eq_getElem?, List.getElem?_zipWith,
    List.getElem?_eq_getElem hx, List.getElem?_eq_getElem hy]
  rfl

theorem idx_map_some (xs : List ℚ) {t : ℕ} (h : t < xs.length) :
    idx (xs.map some) t = some (xs.getD t 0) := by
  rw [idx_eq_getElem?, List.getElem?_map, List.getElem?_eq_getElem h,
    List.getD_eq_getElem?_getD, List.getElem?_eq_getElem h]
  rfl

theorem fdiffAux_getElem? (p : RatF) (xs : List RatF) {t : ℕ} (h : t < xs.length) :
    (fdiffAux p xs)[t]? = some (fsub (idx xs t) (idx (p :: xs) t)) := by
  induction xs generalizing p t with
  | nil => simp at h
  | cons b r ih =>
    cases t with
    | zero => simp [fdiffAux, idx]
    | succ k =>
      have hk : k < r.length := Nat.lt_of_succ_lt_succ h
      rw [fdiffAux]
      simp only [List.getElem?_cons_succ]
      rw [ih _ hk]
      simp [idx_eq_getElem?]

theorem idx_fdiff (xs : List RatF) {t : ℕ} (ht : 0 < t) (h : t < xs.length) :
    idx (fdiff xs) t = fsub (idx xs t) (idx xs (t - 1)) := by
  cases xs with
  | nil => simp at h
  | cons a r =>
    obtain ⟨k, rfl⟩ : ∃ k, t = k + 1 := ⟨t - 1, (Nat.succ_pred_eq_of_pos ht).symm⟩
    have hk : k < r.length := Nat.lt_of_succ_lt_succ (by simpa using h)
    rw [fdiff, idx_eq_getElem?]
    simp only [List.getElem?_cons_succ, Nat.add_sub_cancel]
    rw [fdiffAux_getElem? _ _ hk]
    have h1 : idx (a :: r) (k + 1) = idx r k := by
      rw [idx_eq_getElem?, idx_eq_getElem?, List.getElem?_cons_succ]
    rw [h1]
    rfl

/-! ### Unfolding the two pipeline functions. -/

theorem calc_strategy_performance_fst (data : Frame) (s l : ℕ) :
    (calc_strategy_performance data s l).1 = data := rfl

@[simp]
theorem calc_strategy_performance_close (data : Frame) (s l : ℕ) :
    (calc_strategy_performance data s l).2.close = data.close := rfl

@[simp]
theorem calc_strategy_performance_position (data : Frame) (s l : ℕ) :
    (calc_strategy_performance data s l).2.position
      = some (positionList data.close s l) := rfl

theorem calculate_metrics_eq (data : Frame) (pos : List RatF)
    (hpos : data.position = some pos) (hc : data.close ≠ []) (hp : pos ≠ []) :
    calculate_metrics data
      = (metricsFrame data pos, Except.ok (metricsDict data.close pos)) := by
  have hn : 0 < data.close.length := List.length_pos.mpr hc
  have hps : 0 < pos.length := List.length_pos.mpr hp
  have hcums : cumProd1 (strategyReturnOf (pct_change data.close) pos) ≠ [] := by
    apply List.ne_nil_of_length_pos
    simpa using lt_min hn hps
  have hcumb : cumProd1 (pct_change data.close) ≠ [] := by
    apply List.ne_nil_of_length_pos
    simpa using hn
  obtain ⟨a, ha⟩ := Option.isSome_iff_exists.mp (List.getLast?_isSome.mpr hcums)
  obtain ⟨b2, hb⟩ := Option.isSome_iff_exists.mp (List.getLast?_isSome.mpr hcumb)
  simp only [calculate_metrics, hpos, ha, hb, metricsFrame, metricsDict,
    Option.getD_some]

theorem pipeline_metrics (data : Frame) (s l : ℕ) (hc : data.close ≠ []) :
    calculate_metrics ((calc_strategy_performance data s l).2)
      = (metricsFrame ((calc_strategy_performance data s l).2)
           (positionList data.close s l),
         Except.ok (metricsDict data.close (positionList data.close s l))) := by
  have h1 : ((calc_strategy_performance data s l).2).close = data.close := rfl
  have hp : positionList data.close s l ≠ [] := by
    apply List.ne_nil_of_length_pos
    simpa using List.length_pos.mpr hc
  rw [calculate_metrics_eq _ (positionList data.close s l) rfl (by simpa using hc) hp]
  rw [h1]

theorem sharpeOf_eq (data : Frame) (c : ℕ × ℕ) (hc : data.close ≠ []) :
    sharpeOf data c
      = Except.ok (annualised_sharpe (strategyReturnList data.close c.1 c.2)) := by
  rw [sharpeOf, pipeline_metrics data c.1 c.2 hc]
  rfl

/-- C1: the strategy return defined by `calculate_metrics` multiplies the
daily return at `t` by the position one further step back
(`Position.shift(1)`), which itself is the signal of bar `t-2`: the
two-step lag from signal to realised return. -/
theorem c1_strategy_return_double_lag (closes : List ℚ) (s l t : ℕ)
    (h2 : 2 ≤ t) (ht : t < closes.length) :
    (calculate_metrics ((calc_strategy_performance (Frame.ofClose closes) s l).2)).1.strategy_return
        = some (strategyReturnList closes s l) ∧
    idx (strategyReturnList closes s l) t
        = fmul (idx (pct_change closes) t) (idx (positionList closes s l) (t - 1)) ∧
    idx (positionList closes s l) (t - 1)
        = some ((signalList closes s l).getD (t - 2) 0) := by
  have hc : closes ≠ [] := by
    intro h
    subst h
    simp at ht
  refine ⟨?_, ?_, ?_⟩
  · rw [pipeline_metrics _ s l hc]
    rfl
  · rw [strategyReturnList, strategyReturnOf,
      idx_zipWith _ _ _ (by simpa using ht) (by simpa using ht)]
    rw [idx_fshift _ (by omega) (by simpa using ht)]
  · rw [positionList, idx_fshift _ (by omega) (by simpa using (by omega : t - 1 < closes.length))]
    have : t - 1 - 1 = t - 2 := by omega
    rw [this]
    exact idx_map_some _ (by simp; omega)

/-- C1 witness at the concrete series `[1,2,4,2,1,2]`, windows 1 and 2,
index 4. -/
theorem c1_strategy_return_double_lag_witness :
    2 ≤ 4 ∧ 4 < ([1, 2, 4, 2, 1, 2] : List ℚ).length ∧
    ((calculate_metrics ((calc_strategy_performance (Frame.ofClose [1, 2, 4, 2, 1, 2]) 1 2).2)).1.strategy_return
        = some (strategyReturnList [1, 2, 4, 2, 1, 2] 1 2) ∧
     idx (strategyReturnList [1, 2, 4, 2, 1, 2] 1 2) 4
        = fmul (idx (pct_change [1, 2, 4, 2, 1, 2]) 4)
               (idx (positionList [1, 2, 4, 2, 1, 2] 1 2) 3) ∧
     idx (positionList [1, 2, 4, 2, 1, 2] 1 2) 3
        = some ((signalList [1, 2, 4, 2, 1, 2] 1 2).getD 2 0)) :=
  ⟨by norm_num, by norm_num,
   c1_strategy_return_double_lag [1, 2, 4, 2, 1, 2] 1 2 4 (by norm_num) (by norm_num)⟩

/-- C2: the Position column of `calc_strategy_performance` is the signal
shifted by one bar; its first cell exists and is NaN. -/
theorem c2_position_lags_signal (closes : List ℚ) (s l : ℕ)
    (hne : closes ≠ []) (hs : 0 < s) (hl : 0 < l) :
    ((calc_strategy_performance (Frame.ofClose closes) s l).2).position
        = some (positionList closes s l) ∧
    (positionList closes s l)[0]? = some none ∧
    ∀ t, 0 < t → t < closes.length →
      idx (positionList closes s l) t
        = some ((signalList closes s l).getD (t - 1) 0) := by
  refine ⟨rfl, ?_, ?_⟩
  · rw [positionList]
    apply fshift_getElem?_zero
    apply List.ne_nil_of_length_pos
    simpa using List.length_pos.mpr hne
  · intro t ht htl
    rw [positionList, idx_fshift _ ht (by simpa using htl)]
    exact idx_map_some _ (by simp; omega)

/-- C2 witness at the concrete series `[1,2]`, windows 1 and 1. -/
theorem c2_position_lags_signal_witness :
    ([1, 2] : List ℚ) ≠ [] ∧ 0 < 1 ∧
    (((calc_strategy_performance (Frame.ofClose [1, 2]) 1 1).2).position
        = some (positionList [1, 2] 1 1) ∧
     (positionList [1, 2] 1 1)[0]? = some none ∧
     ∀ t, 0 < t → t < ([1, 2] : List ℚ).length →
       idx (positionList [1, 2] 1 1) t
         = some ((signalList [1, 2] 1 1).getD (t - 1) 0)) :=
  ⟨by simp, by norm_num, c2_position_lags_signal [1, 2] 1 1 (by simp) (by norm_num) (by norm_num)⟩

/-- C3: the signal is 1 exactly on the indices at or past `long_window`
where the fast rolling mean strictly exceeds the slow one (a NaN
comparison counting as false), and is 0 everywhere else; indices before
`long_window` are forced to 0. -/
theorem c3_signal_rule (closes : List ℚ) (s l t : ℕ)
    (hs : 0 < s) (hl : 0 < l) (ht : t < closes.length) :
    ((signalList closes s l).getD t 0 = 1 ↔
       l ≤ t ∧ fgt (idx (rollingMean s closes) t) (idx (rollingMean l closes) t) = true) ∧
    ((signalList closes s l).getD t 0 = 1 ∨ (signalList closes s l).getD t 0 = 0) ∧
    (t < l → (signalList closes s l).getD t 0 = 0) ∧
    ((calc_strategy_performance (Frame.ofClose closes) s l).2).signal
        = some ((signalList closes s l).map some) := by
  rw [signalList_getD _ _ _ ht]
  refine ⟨?_, ?_, ?_, rfl⟩
  · by_cases h1 : l ≤ t
    · by_cases h2 : fgt ((rollingMean s closes).getD t none) ((rollingMean l closes).getD t none) = true
      · simp [h1, h2, idx]
      · simp [h1, h2, idx]
    · simp [h1]
  · by_cases h1 : l ≤ t
    · by_cases h2 : fgt ((rollingMean s closes).getD t none) ((rollingMean l closes).getD t none) = true
      · simp [h1, h2]
      · simp [h1, h2]
    · simp [h1]
  · intro h
    rw [if_neg (by omega)]

/-- C3 witness at the concrete series `[1,2,3]`, windows 1 and 1,
index 2. -/
theorem c3_signal_rule_witness :
    0 < 1 ∧ 2 < ([1, 2, 3] : List ℚ).length ∧
    (((signalList [1, 2, 3] 1 1).getD 2 0 = 1 ↔
        1 ≤ 2 ∧ fgt (idx (rollingMean 1 [1, 2, 3]) 2) (idx (rollingMean 1 [1, 2, 3]) 2) = true) ∧
     ((signalList [1, 2, 3] 1 1).getD 2 0 = 1 ∨ (signalList [1, 2, 3] 1 1).getD 2 0 = 0) ∧
     (2 < 1 → (signalList [1, 2, 3] 1 1).getD 2 0 = 0) ∧
     ((calc_strategy_performance (Frame.ofClose [1, 2, 3]) 1 1).2).signal
        = some ((signalList [1, 2, 3] 1 1).map some)) :=
  ⟨by norm_num, by norm_num, c3_signal_rule [1, 2, 3] 1 1 2 (by norm_num) (by norm_num) (by norm_num)⟩

/-! ### Crossover counting. -/

theorem fdiff_getElem?_zero (xs : List RatF) (h : xs ≠ []) :
    (fdiff xs)[0]? = some none := by
  cases xs with
  | nil => exact absurd rfl h
  | cons a r => simp [fdiff]

theorem signalList_mem (closes : List ℚ) (s l : ℕ) :
    ∀ x ∈ signalList closes s l, x = 0 ∨ x = 1 := by
  intro x hx
  rw [signalList] at hx
  obtain ⟨t, _, rfl⟩ := List.mem_map.mp hx
  by_cases h1 : l ≤ t
  · by_cases h2 : fgt ((rollingMean s closes).getD t none) ((rollingMean l closes).getD t none) = true
    · right
      rw [if_pos h1, if_pos h2]
    · left
      rw [if_pos h1, if_neg h2]
  · left
    rw [if_neg h1]

theorem crossover_count_invariant (a : ℚ) (xs : List ℚ)
    (ha : a = 0 ∨ a = 1) (hxs : ∀ x ∈ xs, x = 0 ∨ x = 1) :
    countPos (fdiffAux (some a) (xs.map some))
        + (if a = 1 then 1 else 0)
      = countNeg (fdiffAux (some a) (xs.map some))
        + (if (a :: xs).getLast (List.cons_ne_nil a xs) = 1 then 1 else 0) := by
  induction xs generalizing a with
  | nil => simp [fdiffAux, countPos, countNeg]
  | cons b r ih =>
    have hb : b = 0 ∨ b = 1 := hxs b (by simp)
    have hr : ∀ x ∈ r, x = 0 ∨ x = 1 := fun x hx => hxs x (by simp [hx])
    have hlast : (a :: b :: r).getLast (List.cons_ne_nil a (b :: r))
        = (b :: r).getLast (List.cons_ne_nil b r) := by
      simp [List.getLast_cons]
    have step := ih b hb hr
    have hcp : countPos (fdiffAux (some a) ((b :: r).map some))
        = countPos (fdiffAux (some b) (r.map some)) + (if b - a = 1 then 1 else 0) := by
      simp only [List.map_cons, fdiffAux, fsub, countPos, List.countP_cons,
        decide_eq_true_eq, Option.some.injEq]
    have hcn : countNeg (fdiffAux (some a) ((b :: r).map some))
        = countNeg (fdiffAux (some b) (r.map some)) + (if b - a = -1 then 1 else 0) := by
      simp only [List.map_cons, fdiffAux, fsub, countNeg, List.countP_cons,
        decide_eq_true_eq, Option.some.injEq]
    rw [hcp, hcn, hlast]
    rcases ha with rfl | rfl <;> rcases hb with rfl | rfl
    · rw [if_neg (by norm_num : ¬((0 : ℚ) - 0 = 1)),
        if_neg (by norm_num : ¬((0 : ℚ) - 0 = -1))]
      rw [if_neg (by norm_num : ¬((0 : ℚ) = 1))] at step ⊢
      omega
    · rw [if_pos (by norm_num : (1 : ℚ) - 0 = 1),
        if_neg (by norm_num : ¬((1 : ℚ) - 0 = -1)),
        if_neg (by norm_num : ¬((0 : ℚ) = 1))]
      rw [if_pos (by norm_num : (1 : ℚ) = 1)] at step
      omega
    · rw [if_neg (by norm_num : ¬((0 : ℚ) - 1 = 1)),
        if_pos (by norm_num : (0 : ℚ) - 1 = -1),
        if_pos (by norm_num : (1 : ℚ) = 1)]
      rw [if_neg (by norm_num : ¬((0 : ℚ) = 1))] at step
      omega
    · rw [if_neg (by norm_num : ¬((1 : ℚ) - 1 = 1)),
        if_neg (by norm_num : ¬((1 : ℚ) - 1 = -1))]
      rw [if_pos (by norm_num : (1 : ℚ) = 1)] at step ⊢
      omega

/-- C9: the Crossover column is the first difference of the Signal column
(NaN at index 0), and over the whole series the number of +1 events equals
the number of -1 events or exceeds it by exactly one. -/
theorem c9_crossover_diff_and_balance (closes : List ℚ) (s l : ℕ)
    (hl : 0 < l) (hne : closes ≠ []) :
    ((calc_strategy_performance (Frame.ofClose closes) s l).2).crossover
        = some (crossoverList closes s l) ∧
    (crossoverList closes s l)[0]? = some none ∧
    (∀ t, 0 < t → t < closes.length →
      idx (crossoverList closes s l) t
        = some ((signalList closes s l).getD t 0 - (signalList closes s l).getD (t - 1) 0)) ∧
    (countPos (crossoverList closes s l) = countNeg (crossoverList closes s l) ∨
     countPos (crossoverList closes s l) = countNeg (crossoverList closes s l) + 1) := by
  have hn : 0 < closes.length := List.length_pos.mpr hne
  have hsig : (signalList closes s l).length = closes.length := signalList_length closes s l
  refine ⟨rfl, ?_, ?_, ?_⟩
  · rw [crossoverList]
    apply fdiff_getElem?_zero
    apply List.ne_nil_of_length_pos
    simpa [hsig] using hn
  · intro t ht htl
    rw [crossoverList, idx_fdiff _ ht (by simpa [hsig] using htl)]
    rw [idx_map_some _ (by simpa [hsig] using htl),
      idx_map_some _ (by rw [hsig]; omega)]
    rfl
  · obtain ⟨s0, rest, hrep⟩ : ∃ s0 rest, signalList closes s l = s0 :: rest := by
      cases hd : signalList closes s l with
      | nil =>
        rw [hd] at hsig
        simp at hsig
        omega
      | cons x y => exact ⟨x, y, rfl⟩
    have hs0 : s0 = 0 := by
      have h0 := signalList_getD closes s l hn
      rw [if_neg (by omega)] at h0
      rw [hrep] at h0
      simpa using h0
    have hrest : ∀ x ∈ rest, x = 0 ∨ x = 1 := by
      intro x hx
      exact signalList_mem closes s l x (by rw [hrep]; simp [hx])
    have hcross : crossoverList closes s l = none :: fdiffAux (some s0) (rest.map some) := by
      rw [crossoverList, hrep]
      rfl
    have inv := crossover_count_invariant s0 rest (Or.inl hs0) hrest
    rw [hs0] at inv
    rw [if_neg (by norm_num)] at inv
    rw [hcross, hs0]
    rw [countPos, countNeg, List.countP_cons, List.countP_cons]
    simp only [show (decide ((none : RatF) = some (1 : ℚ))) = false from rfl,
      show (decide ((none : RatF) = some (-1 : ℚ))) = false from rfl]
    rw [countPos, countNeg] at inv
    by_cases hend : ((0 : ℚ) :: rest).getLast (List.cons_ne_nil 0 rest) = 1
    · rw [if_pos hend] at inv
      right
      omega
    · rw [if_neg hend] at inv
      left
      omega

/-- C9 witness at the concrete series `[1,2,3]`, windows 1 and 1. -/
theorem c9_crossover_diff_and_balance_witness :
    0 < 1 ∧ ([1, 2, 3] : List ℚ) ≠ [] ∧
    (((calc_strategy_performance (Frame.ofClose [1, 2, 3]) 1 1).2).crossover
        = some (crossoverList [1, 2, 3] 1 1) ∧
     (crossoverList [1, 2, 3] 1 1)[0]? = some none ∧
     (∀ t, 0 < t → t < ([1, 2, 3] : List ℚ).length →
       idx (crossoverList [1, 2, 3] 1 1) t
         = some ((signalList [1, 2, 3] 1 1).getD t 0 - (signalList [1, 2, 3] 1 1).getD (t - 1) 0)) ∧
     (countPos (crossoverList [1, 2, 3] 1 1) = countNeg (crossoverList [1, 2, 3] 1 1) ∨
      countPos (crossoverList [1, 2, 3] 1 1) = countNeg (crossoverList [1, 2, 3] 1 1) + 1)) :=
  ⟨by norm_num, by simp, c9_crossover_diff_and_balance [1, 2, 3] 1 1 (by norm_num) (by simp)⟩

set_option maxRecDepth 20000 in
/-- C10: every pair of the hardcoded grid has `short < long`, so the skip
branch of the optimiser never fires, and the grid has exactly
11 * 16 = 176 candidates. -/
theorem c10_grid_valid_pairs :
    (∀ p ∈ window_grid, p.1 < p.2) ∧ window_grid.length = 176 := by
  constructor
  · decide
  · decide

@[simp]
theorem Frame.ofClose_close (closes : List ℚ) : (Frame.ofClose closes).close = closes := rfl

/-- C6 counterexample: in the concrete scenario the signal at index 3 is 0,
not 1 as claimed — index 3 lies before `long_window = 4`, so the source
forces it to 0 even though the fast mean 103 exceeds the slow mean 102. -/
theorem c6_scenario_counterexample :
    (signalList [100, 102, 101, 105, 110, 108, 115, 120, 118, 125] 2 4).getD 3 0 ≠ 1 := by
  rw [signalList_getD _ _ _ (by simp)]
  norm_num

/-- C6 amended: fast mean 103 and slow mean 102 at index 3 as claimed, but
the signal there is 0 (index 3 is before `long_window = 4` and is forced to
0 despite 103 > 102); the position at index 3 is the signal of index 2,
which is 0. -/
theorem c6_scenario_amended :
    idx (rollingMean 2 [100, 102, 101, 105, 110, 108, 115, 120, 118, 125]) 3 = some 103 ∧
    idx (rollingMean 4 [100, 102, 101, 105, 110, 108, 115, 120, 118, 125]) 3 = some 102 ∧
    (signalList [100, 102, 101, 105, 110, 108, 115, 120, 118, 125] 2 4).getD 3 0 = 0 ∧
    idx (positionList [100, 102, 101, 105, 110, 108, 115, 120, 118, 125] 2 4) 3
      = some ((signalList [100, 102, 101, 105, 110, 108, 115, 120, 118, 125] 2 4).getD 2 0) ∧
    (signalList [100, 102, 101, 105, 110, 108, 115, 120, 118, 125] 2 4).getD 2 0 = 0 := by
  refine ⟨?_, ?_, ?_, ?_, ?_⟩
  · rw [idx_rollingMean _ _ (by simp)]
    norm_num [List.drop_succ_cons, List.take_succ_cons, List.sum_cons]
  · rw [idx_rollingMean _ _ (by simp)]
    norm_num [List.drop_succ_cons, List.take_succ_cons, List.sum_cons]
  · rw [signalList_getD _ _ _ (by simp)]
    norm_num
  · rw [positionList, idx_fshift _ (by norm_num) (by simp)]
    exact idx_map_some _ (by simp)
  · rw [signalList_getD _ _ _ (by simp)]
    norm_num

/-! ### A too-short series produces only NaN or zero strategy returns, so
Sharpe and Calmar degrade to NaN. -/

theorem mem_zipWith {f : RatF → RatF → RatF} {z : RatF} {xs ys : List RatF}
    (hz : z ∈ List.zipWith f xs ys) : ∃ x ∈ xs, ∃ y ∈ ys, z = f x y := by
  induction xs generalizing ys with
  | nil => simp at hz
  | cons a r ih =>
    cases ys with
    | nil => simp at hz
    | cons b q =>
      rw [List.zipWith_cons_cons] at hz
      rcases List.mem_cons.mp hz with h | h
      · exact ⟨a, by simp, b, by simp, h⟩
      · obtain ⟨x, hx, y, hy, hzz⟩ := ih h
        exact ⟨x, by simp [hx], y, by simp [hy], hzz⟩

theorem fshift_mem {x : RatF} {xs : List RatF} (hx : x ∈ fshift xs) :
    x = none ∨ x ∈ xs := by
  cases xs with
  | nil => simp [fshift] at hx
  | cons a r =>
    rw [fshift] at hx
    rcases List.mem_cons.mp hx with h | h
    · exact Or.inl h
    · exact Or.inr ((List.dropLast_sublist (a :: r)).subset h)

theorem signal_zero_of_short (closes : List ℚ) (s l : ℕ) (hlen : closes.length ≤ l) :
    ∀ x ∈ signalList closes s l, x = 0 := by
  intro x hx
  rw [signalList] at hx
  obtain ⟨t, ht, rfl⟩ := List.mem_map.mp hx
  have htl : t < closes.length := List.mem_range.mp ht
  rw [if_neg (by omega)]

theorem strategyReturn_trivial (closes : List ℚ) (s l : ℕ) (hlen : closes.length ≤ l) :
    ∀ x ∈ strategyReturnList closes s l, x = none ∨ x = some 0 := by
  intro x hx
  rw [strategyReturnList, strategyReturnOf] at hx
  obtain ⟨d, _, p, hp, rfl⟩ := mem_zipWith hx
  rcases fshift_mem hp with h | h
  · rw [h]
    left
    cases d <;> rfl
  · rw [positionList] at h
    rcases fshift_mem h with h2 | h2
    · rw [h2]
      left
      cases d <;> rfl
    · obtain ⟨q, hq, rfl⟩ := List.mem_map.mp h2
      rw [signal_zero_of_short closes s l hlen q hq]
      cases d with
      | none => exact Or.inl rfl
      | some dv =>
        right
        simp [fmul]

theorem filterMap_id_zeros {xs : List RatF} (h : ∀ x ∈ xs, x = none ∨ x = some 0) :
    ∀ y ∈ xs.filterMap id, y = (0 : ℚ) := by
  intro y hy
  obtain ⟨x, hx, hxy⟩ := List.mem_filterMap.mp hy
  rcases h x hx with rfl | rfl
  · simp at hxy
  · simpa using hxy.symm

theorem trivial_fmean (xs : List RatF) (h : ∀ x ∈ xs, x = none ∨ x = some 0) :
    fmean xs = none ∨ fmean xs = some 0 := by
  rw [fmean]
  by_cases hl : (xs.filterMap id).length = 0
  · left
    rw [if_pos hl]
  · right
    rw [if_neg hl, List.sum_eq_zero (filterMap_id_zeros h)]
    simp

theorem trivial_fvar (xs : List RatF) (h : ∀ x ∈ xs, x = none ∨ x = some 0) :
    fvar xs = none ∨ fvar xs = some 0 := by
  rw [fvar]
  by_cases hl : (xs.filterMap id).length < 2
  · left
    rw [if_pos hl]
  · right
    rw [if_neg hl]
    have hz : ∀ y ∈ (xs.filterMap id).map (fun x =>
        (x - (xs.filterMap id).sum / (((xs.filterMap id).length : ℚ))) ^ 2), y = 0 := by
      intro y hy
      obtain ⟨x, hx, rfl⟩ := List.mem_map.mp hy
      rw [filterMap_id_zeros h x hx, List.sum_eq_zero (filterMap_id_zeros h)]
      norm_num
    rw [List.sum_eq_zero hz]
    simp

theorem cumprodAux_trivial (xs : List RatF) (h : ∀ x ∈ xs, x = none ∨ x = some 1) :
    ∀ acc, ∀ y ∈ cumprodAux acc xs, y = none ∨ y = some acc := by
  induction xs with
  | nil =>
    intro acc y hy
    simp [cumprodAux] at hy
  | cons a r ih =>
    intro acc y hy
    rcases h a (by simp) with rfl | rfl
    · rw [cumprodAux] at hy
      rcases List.mem_cons.mp hy with rfl | hy2
      · exact Or.inl rfl
      · exact ih (fun x hx => h x (by simp [hx])) acc y hy2
    · rw [cumprodAux] at hy
      rcases List.mem_cons.mp hy with rfl | hy2
      · right
        rw [mul_one]
      · have := ih (fun x hx => h x (by simp [hx])) (acc * 1) y hy2
        rwa [mul_one] at this

theorem cumProd1_trivial (xs : List RatF) (h : ∀ x ∈ xs, x = none ∨ x = some 0) :
    ∀ y ∈ cumProd1 xs, y = none ∨ y = some 1 := by
  intro y hy
  rw [cumProd1, cumprodF] at hy
  have hmap : ∀ x ∈ xs.map (fadd (some 1)), x = none ∨ x = some 1 := by
    intro x hx
    obtain ⟨x0, hx0, rfl⟩ := List.mem_map.mp hx
    rcases h x0 hx0 with rfl | rfl
    · exact Or.inl rfl
    · right
      simp [fadd]
  exact cumprodAux_trivial _ hmap 1 y hy

theorem cummaxAux_trivial (xs : List RatF) (h : ∀ x ∈ xs, x = none ∨ x = some 1) :
    ∀ cur, cur = none ∨ cur = some 1 → ∀ y ∈ cummaxAux cur xs, y = none ∨ y = some 1 := by
  induction xs with
  | nil =>
    intro cur _ y hy
    simp [cummaxAux] at hy
  | cons a r ih =>
    intro cur hc y hy
    have hr : ∀ x ∈ r, x = none ∨ x = some 1 := fun x hx => h x (by simp [hx])
    rcases h a (by simp) with rfl | rfl
    · rcases hc with rfl | rfl <;>
      · rw [cummaxAux] at hy
        rcases List.mem_cons.mp hy with rfl | hy2
        · exact Or.inl rfl
        · exact ih hr _ (by simp) y hy2
    · rcases hc with rfl | rfl
      · rw [cummaxAux] at hy
        rcases List.mem_cons.mp hy with rfl | hy2
        · exact Or.inr rfl
        · exact ih hr (some 1) (Or.inr rfl) y hy2
      · rw [cummaxAux] at hy
        rcases List.mem_cons.mp hy with rfl | hy2
        · right
          rw [max_self]
        · have := ih hr (some (max 1 1)) (by rw [max_self]; exact Or.inr rfl) y hy2
          exact this

theorem drawdown_trivial (cums : List RatF) (h : ∀ y ∈ cums, y = none ∨ y = some 1) :
    ∀ z ∈ drawdownOf cums, z = none ∨ z = some 0 := by
  intro z hz
  rw [drawdownOf] at hz
  obtain ⟨mx, hmx, c, hc, rfl⟩ := mem_zipWith hz
  have hmx2 : mx = none ∨ mx = some 1 :=
    cummaxAux_trivial cums h none (Or.inl rfl) mx (by rwa [cummaxF] at hmx)
  rcases hmx2 with rfl | rfl
  · exact Or.inl rfl
  · rcases h c hc with rfl | rfl
    · exact Or.inl rfl
    · right
      show fdiv (fsub (some 1) (some 1)) (some 1) = some 0
      rw [fsub, fdiv]
      norm_num

theorem foldl_max_zeros (ys : List ℚ) (h : ∀ z ∈ ys, z = 0) : ys.foldl max 0 = 0 := by
  induction ys with
  | nil => rfl
  | cons z r ih =>
    rw [List.foldl_cons, h z (by simp), max_self]
    exact ih fun w hw => h w (by simp [hw])

theorem fmax_trivial (xs : List RatF) (h : ∀ x ∈ xs, x = none ∨ x = some 0) :
    fmax xs = none ∨ fmax xs = some 0 := by
  rw [fmax]
  cases hf : xs.filterMap id with
  | nil => exact Or.inl rfl
  | cons y ys =>
    right
    have hy : y = 0 := filterMap_id_zeros h y (by rw [hf]; simp)
    have hys : ys.foldl max 0 = 0 :=
      foldl_max_zeros ys fun z hz => filterMap_id_zeros h z (by rw [hf]; simp [hz])
    rw [hy]
    show some (List.foldl max 0 ys) = some 0
    rw [hys]

theorem annualised_sharpe_none (sr : List RatF)
    (h : fvar sr = none ∨ fvar sr = some 0) :
    annualised_sharpe sr = none := by
  rw [annualised_sharpe]
  rcases h with h | h <;> rw [h] <;> cases hm : fmean sr
  · rfl
  · rfl
  · rfl
  · simp

theorem calmarOf_none (sr : List RatF) (mdd : RatF) (h : mdd = none ∨ mdd = some 0) :
    calmarOf sr mdd = none := by
  rcases h with rfl | rfl
  · rfl
  · rw [calmarOf]
    simp

/-- C7 counterexample: on the empty price series `calculate_metrics`
raises (the `iloc[-1]` IndexError), and on a non-empty series shorter than
`long_window` the total strategy return is the defined value 0, not an
undefined one. -/
theorem c7_empty_series_counterexample :
    (calculate_metrics ((calc_strategy_performance (Frame.ofClose []) 2 4).2)).2
        = Except.error () ∧
    (calculate_metrics ((calc_strategy_performance (Frame.ofClose [1, 1, 1]) 2 4).2)).2.map
        Metrics.total_strategy_return = Except.ok (some 0) := by
  constructor
  · rfl
  · have hsig : signalList [1, 1, 1] 2 4 = [0, 0, 0] := by
      norm_num [signalList, List.range_succ]
    have hpos : positionList [1, 1, 1] 2 4 = [none, some 0, some 0] := by
      rw [positionList, hsig]
      rfl
    have hdr : pct_change [1, 1, 1] = [none, some 0, some 0] := by
      norm_num [pct_change, List.range_succ]
    have hsr : strategyReturnList [1, 1, 1] 2 4 = [none, none, some 0] := by
      rw [strategyReturnList, strategyReturnOf, hdr, hpos]
      norm_num [fshift, fmul, List.zipWith]
    have hcum : cumProd1 (strategyReturnList [1, 1, 1] 2 4) = [none, none, some 1] := by
      rw [hsr]
      norm_num [cumProd1, cumprodF, cumprodAux, fadd]
    rw [pipeline_metrics (Frame.ofClose [1, 1, 1]) 2 4 (by simp)]
    show Except.ok (fsub ((cumProd1 (strategyReturnList [1, 1, 1] 2 4)).getLast?.getD none)
        (some 1)) = Except.ok (some 0)
    rw [hcum]
    show Except.ok (fsub (some 1) (some 1)) = Except.ok (some 0)
    rw [fsub]
    norm_num

/-- C7 amended: `calc_strategy_performance` tolerates any series, and for a
NON-EMPTY price series shorter than `long_window` the whole pipeline
completes without an exception with Sharpe and Calmar resolving to NaN
(total returns and drawdown, however, come out as defined trivial values,
and the truly empty series raises IndexError at `iloc[-1]`). -/
theorem c7_short_series_amended (closes : List ℚ) (s l : ℕ)
    (hne : closes ≠ []) (hlen : closes.length < l) :
    (calculate_metrics ((calc_strategy_performance (Frame.ofClose closes) s l).2)).2.map
        Metrics.sharpe = Except.ok none ∧
    (calculate_metrics ((calc_strategy_performance (Frame.ofClose closes) s l).2)).2.map
        Metrics.calmar_ratio = Except.ok none := by
  have hsr := strategyReturn_trivial closes s l (le_of_lt hlen)
  have hsharpe := annualised_sharpe_none _ (trivial_fvar _ hsr)
  have hcal := calmarOf_none (strategyReturnList closes s l) _
    (fmax_trivial _ (drawdown_trivial _ (cumProd1_trivial _ hsr)))
  rw [pipeline_metrics (Frame.ofClose closes) s l (by simpa using hne)]
  constructor
  · show Except.ok (annualised_sharpe (strategyReturnList closes s l)) = Except.ok none
    rw [hsharpe]
  · show Except.ok (calmarOf (strategyReturnList closes s l)
        (fmax (drawdownOf (cumProd1 (strategyReturnList closes s l))))) = Except.ok none
    rw [hcal]

/-- C7 witness at the concrete constant series `[1,1,1]` with
`long_window = 4`. -/
theorem c7_short_series_amended_witness :
    ([1, 1, 1] : List ℚ) ≠ [] ∧ ([1, 1, 1] : List ℚ).length < 4 ∧
    ((calculate_metrics ((calc_strategy_performance (Frame.ofClose [1, 1, 1]) 2 4).2)).2.map
        Metrics.sharpe = Except.ok none ∧
     (calculate_metrics ((calc_strategy_performance (Frame.ofClose [1, 1, 1]) 2 4).2)).2.map
        Metrics.calmar_ratio = Except.ok none) :=
  ⟨by simp, by simp, c7_short_series_amended [1, 1, 1] 2 4 (by simp) (by simp)⟩

/-! ### The Sharpe and Calmar guards. -/

theorem fvar_nonneg (xs : List RatF) (v : ℚ) (hv : fvar xs = some v) : 0 ≤ v := by
  rw [fvar] at hv
  by_cases hl : (xs.filterMap id).length < 2
  · rw [if_pos hl] at hv
    exact absurd hv (by simp)
  · rw [if_neg hl] at hv
    have hv2 := Option.some.inj hv
    have hlen : (2 : ℚ) ≤ ((xs.filterMap id).length : ℚ) := by
      exact_mod_cast Nat.le_of_not_lt hl
    have hsum : 0 ≤ ((xs.filterMap id).map fun x =>
        (x - (xs.filterMap id).sum / (((xs.filterMap id).length : ℚ))) ^ 2).sum := by
      apply List.sum_nonneg
      intro y hy
      obtain ⟨x, _, rfl⟩ := List.mem_map.mp hy
      positivity
    rw [← hv2]
    apply div_nonneg hsum
    linarith

/-- C4: `calculate_metrics` guards both ratio divisions.  Whenever the
variance of the strategy returns is the defined value `v` and the maximum
drawdown is the defined value `d`, the Sharpe ratio is NaN exactly when the
standard deviation is 0 and otherwise equals
`(mean * 252) / (std * sqrt 252)`, and the Calmar ratio is NaN exactly when
the maximum drawdown is 0 and otherwise equals `(mean * 252) / d`; no
division by zero is ever performed. -/
theorem c4_sharpe_calmar_guard (closes : List ℚ) (s l : ℕ) (v mq d : ℚ)
    (hne : closes ≠ [])
    (hv : fvar (strategyReturnList closes s l) = some v)
    (hm : fmean (strategyReturnList closes s l) = some mq)
    (hd : fmax (drawdownOf (cumProd1 (strategyReturnList closes s l))) = some d) :
    ((calculate_metrics ((calc_strategy_performance (Frame.ofClose closes) s l).2)).2.map
        Metrics.sharpe = Except.ok none ↔ v = 0) ∧
    (v ≠ 0 →
      (calculate_metrics ((calc_strategy_performance (Frame.ofClose closes) s l).2)).2.map
        Metrics.sharpe
        = Except.ok (some (((mq : ℝ) * 252) / (Real.sqrt (v : ℝ) * Real.sqrt 252)))) ∧
    ((calculate_metrics ((calc_strategy_performance (Frame.ofClose closes) s l).2)).2.map
        Metrics.calmar_ratio = Except.ok none ↔ d = 0) ∧
    (d ≠ 0 →
      (calculate_metrics ((calc_strategy_performance (Frame.ofClose closes) s l).2)).2.map
        Metrics.calmar_ratio = Except.ok (some ((mq * 252) / d))) := by
  rw [pipeline_metrics _ s l (by simpa using hne)]
  have hv0 : 0 ≤ v := fvar_nonneg _ v hv
  have hsqrt : v ≠ 0 → Real.sqrt (v : ℝ) ≠ 0 := by
    intro hvz
    have hpos : (0 : ℝ) < (v : ℝ) := by
      exact_mod_cast lt_of_le_of_ne hv0 (Ne.symm hvz)
    exact ne_of_gt (Real.sqrt_pos.mpr hpos)
  refine ⟨?_, ?_, ?_, ?_⟩
  · show Except.ok (annualised_sharpe (strategyReturnList closes s l)) = Except.ok none ↔ v = 0
    simp only [annualised_sharpe, hm, hv]
    constructor
    · intro h
      by_contra hvz
      rw [if_neg (hsqrt hvz)] at h
      simp at h
    · intro h
      subst h
      rw [if_pos (by simp)]
  · intro hvz
    show Except.ok (annualised_sharpe (strategyReturnList closes s l))
        = Except.ok (some (((mq : ℝ) * 252) / (Real.sqrt (v : ℝ) * Real.sqrt 252)))
    simp only [annualised_sharpe, hm, hv]
    rw [if_neg (hsqrt hvz)]
  · show Except.ok (calmarOf (strategyReturnList closes s l)
        (fmax (drawdownOf (cumProd1 (strategyReturnList closes s l))))) = Except.ok none ↔ d = 0
    rw [hd]
    simp only [calmarOf]
    constructor
    · intro h
      by_contra hdz
      rw [if_neg hdz, hm, fmul, fdiv, if_neg hdz] at h
      simp at h
    · intro h
      subst h
      rw [if_pos rfl]
  · intro hdz
    show Except.ok (calmarOf (strategyReturnList closes s l)
        (fmax (drawdownOf (cumProd1 (strategyReturnList closes s l)))))
        = Except.ok (some ((mq * 252) / d))
    rw [hd]
    simp only [calmarOf]
    rw [if_neg hdz, hm, fmul, fdiv, if_neg hdz]

/-- C4 witness at the concrete series `[1,2,4,2,1,2]` with windows 1 and 2:
variance 1/16, mean -1/8, maximum drawdown 1/2, both nonzero, so Sharpe and
Calmar take their quotient values. -/
theorem c4_sharpe_calmar_guard_witness :
    (([1, 2, 4, 2, 1, 2] : List ℚ) ≠ [] ∧
     fvar (strategyReturnList [1, 2, 4, 2, 1, 2] 1 2) = some (1 / 16) ∧
     fmean (strategyReturnList [1, 2, 4, 2, 1, 2] 1 2) = some (-(1 : ℚ) / 8) ∧
     fmax (drawdownOf (cumProd1 (strategyReturnList [1, 2, 4, 2, 1, 2] 1 2))) = some (1 / 2)) ∧
    (((calculate_metrics ((calc_strategy_performance (Frame.ofClose [1, 2, 4, 2, 1, 2]) 1 2).2)).2.map
        Metrics.sharpe = Except.ok none ↔ (1 : ℚ) / 16 = 0) ∧
     ((1 : ℚ) / 16 ≠ 0 →
       (calculate_metrics ((calc_strategy_performance (Frame.ofClose [1, 2, 4, 2, 1, 2]) 1 2).2)).2.map
         Metrics.sharpe
         = Except.ok (some (((-(1 : ℚ) / 8 : ℚ) : ℝ) * 252
             / (Real.sqrt ((1 / 16 : ℚ) : ℝ) * Real.sqrt 252)))) ∧
     ((calculate_metrics ((calc_strategy_performance (Frame.ofClose [1, 2, 4, 2, 1, 2]) 1 2).2)).2.map
        Metrics.calmar_ratio = Except.ok none ↔ (1 : ℚ) / 2 = 0) ∧
     ((1 : ℚ) / 2 ≠ 0 →
       (calculate_metrics ((calc_strategy_performance (Frame.ofClose [1, 2, 4, 2, 1, 2]) 1 2).2)).2.map
         Metrics.calmar_ratio = Except.ok (some ((-(1 : ℚ) / 8 * 252) / (1 / 2))))) := by
  have hsig : signalList [1, 2, 4, 2, 1, 2] 1 2 = [0, 0, 1, 0, 0, 1] := by
    norm_num [signalList, List.range_succ, rollingMean, fgt,
      List.getD_cons_zero, List.getD_cons_succ]
  have hdr : pct_change [1, 2, 4, 2, 1, 2]
      = [none, some 1, some 1, some (-(1 : ℚ) / 2), some (-(1 : ℚ) / 2), some 1] := by
    norm_num [pct_change, List.range_succ, List.getD_cons_zero, List.getD_cons_succ]
  have hsr : strategyReturnList [1, 2, 4, 2, 1, 2] 1 2
      = [none, none, some 0, some 0, some (-(1 : ℚ) / 2), some 0] := by
    rw [strategyReturnList, strategyReturnOf, hdr, positionList, hsig]
    norm_num [fshift, fmul, List.zipWith]
  have hv : fvar (strategyReturnList [1, 2, 4, 2, 1, 2] 1 2) = some (1 / 16) := by
    rw [hsr]
    norm_num [fvar, List.filterMap]
  have hm : fmean (strategyReturnList [1, 2, 4, 2, 1, 2] 1 2) = some (-(1 : ℚ) / 8) := by
    rw [hsr]
    norm_num [fmean, List.filterMap]
  have hcum : cumProd1 (strategyReturnList [1, 2, 4, 2, 1, 2] 1 2)
      = [none, none, some 1, some 1, some ((1 : ℚ) / 2), some ((1 : ℚ) / 2)] := by
    rw [hsr]
    norm_num [cumProd1, cumprodF, cumprodAux, fadd]
  have hd : fmax (drawdownOf (cumProd1 (strategyReturnList [1, 2, 4, 2, 1, 2] 1 2)))
      = some (1 / 2) := by
    rw [hcum]
    norm_num [drawdownOf, cummaxF, cummaxAux, fmax, fdiv, fsub, List.zipWith, List.filterMap]
  exact ⟨⟨by simp, hv, hm, hd⟩,
    c4_sharpe_calmar_guard [1, 2, 4, 2, 1, 2] 1 2 (1 / 16) (-(1 : ℚ) / 8) (1 / 2)
      (by simp) hv hm hd⟩

/-! ### Frame effects. -/

theorem calculate_metrics_close (data : Frame) :
    (calculate_metrics data).1.close = data.close := by
  simp only [calculate_metrics]
  split
  · rfl
  · split
    · rfl
    · rfl

theorem optLoop_fst (L : List (ℕ × ℕ)) :
    ∀ (data : Frame) (bp : ℕ × ℕ) (bs : WithBot ℝ), (optLoop data L bp bs).1 = data := by
  induction L with
  | nil =>
    intro data bp bs
    rfl
  | cons c rest ih =>
    intro data bp bs
    simp only [optLoop]
    by_cases h : c.2 ≤ c.1
    · rw [if_pos h]
      exact ih data bp bs
    · rw [if_neg h]
      cases hmet : (calculate_metrics (calc_strategy_performance data c.1 c.2).2).2 with
      | error e =>
        simp only [hmet]
        rfl
      | ok m =>
        simp only [hmet]
        cases hsh : m.sharpe with
        | none =>
          simp only [hsh]
          exact ih _ bp bs
        | some sv =>
          simp only [hsh]
          by_cases hlt : bs < (sv : WithBot ℝ)
          · rw [if_pos hlt]
            exact ih _ _ _
          · rw [if_neg hlt]
            exact ih _ _ _

/-- C8 counterexample: `calculate_metrics` does NOT leave its input frame
unchanged — after the call the frame carries a Daily_Return column that the
input did not have. -/
theorem c8_metrics_mutation_counterexample :
    (calculate_metrics ((calc_strategy_performance (Frame.ofClose [1, 2]) 1 2).2)).1
      ≠ (calc_strategy_performance (Frame.ofClose [1, 2]) 1 2).2 := by
  intro h
  have h2 := congrArg Frame.daily_return h
  rw [pipeline_metrics (Frame.ofClose [1, 2]) 1 2 (by simp)] at h2
  simp [metricsFrame, calc_strategy_performance, Frame.ofClose] at h2

/-- C8 amended: `calc_strategy_performance` leaves its input frame
unchanged (it works on a copy), while `calculate_metrics` assigns derived
columns on its input in place — but never the Close column; consequently
every optimiser iteration derives from an unchanged caller frame and the
caller frame (in particular its price series) is identical before and
after `optimise_strategy`. -/
theorem c8_frame_effects_amended :
    (∀ (data : Frame) (s l : ℕ), (calc_strategy_performance data s l).1 = data) ∧
    (∀ data : Frame, (calculate_metrics data).1.close = data.close) ∧
    (∀ data : Frame, (optimise_strategy data).1 = data) := by
  refine ⟨fun data s l => rfl, calculate_metrics_close, ?_⟩
  intro data
  rw [optimise_strategy]
  exact optLoop_fst window_grid data (0, 0) ⊥

/-! ### The optimiser selection rule. -/

set_option maxRecDepth 20000 in
theorem window_grid_long_lb : ∀ c ∈ window_grid, 100 ≤ c.2 := by decide

theorem optLoop_all_nan (L : List (ℕ × ℕ)) :
    ∀ (data : Frame) (bp : ℕ × ℕ) (bs : WithBot ℝ),
      (∀ c ∈ L, sharpeOf data c = Except.ok none) →
      optLoop data L bp bs = (data, Except.ok bp) := by
  induction L with
  | nil =>
    intro data bp bs _
    rfl
  | cons c rest ih =>
    intro data bp bs h
    have hrest : ∀ x ∈ rest, sharpeOf data x = Except.ok none :=
      fun x hx => h x (by simp [hx])
    simp only [optLoop]
    by_cases hc : c.2 ≤ c.1
    · rw [if_pos hc]
      exact ih data bp bs hrest
    · rw [if_neg hc]
      have hcs := h c (by simp)
      cases hmet : (calculate_metrics (calc_strategy_performance data c.1 c.2).2).2 with
      | error e =>
        rw [sharpeOf, hmet] at hcs
        simp [Except.map] at hcs
      | ok m =>
        rw [sharpeOf, hmet] at hcs
        have hm : m.sharpe = none := by
          simpa [Except.map] using hcs
        simp only [hmet, hm]
        exact ih _ bp bs hrest

set_option maxRecDepth 20000 in
/-- C5: the optimiser sweeps the grid short-outer ascending, long-inner
ascending (the candidate list is strictly increasing in the lexicographic
order); a NaN Sharpe never replaces the incumbent; a defined Sharpe that
does not strictly exceed the incumbent (ties included) keeps the
incumbent; a strictly greater Sharpe replaces it; and when every
candidate's Sharpe is NaN (e.g. a constant price series) the sentinel
`(0, 0)` is returned. -/
theorem c5_optimiser_selection :
    List.Pairwise (fun a b : ℕ × ℕ => a.1 < b.1 ∨ (a.1 = b.1 ∧ a.2 < b.2)) window_grid ∧
    (∀ (data : Frame) (rest : List (ℕ × ℕ)) (bp c : ℕ × ℕ) (bs : WithBot ℝ),
      c.1 < c.2 → sharpeOf data c = Except.ok none →
      optLoop data (c :: rest) bp bs = optLoop data rest bp bs) ∧
    (∀ (data : Frame) (rest : List (ℕ × ℕ)) (bp c : ℕ × ℕ) (bs : WithBot ℝ) (s : ℝ),
      c.1 < c.2 → sharpeOf data c = Except.ok (some s) → ¬bs < (s : WithBot ℝ) →
      optLoop data (c :: rest) bp bs = optLoop data rest bp bs) ∧
    (∀ (data : Frame) (rest : List (ℕ × ℕ)) (bp c : ℕ × ℕ) (bs : WithBot ℝ) (s : ℝ),
      c.1 < c.2 → sharpeOf data c = Except.ok (some s) → bs < (s : WithBot ℝ) →
      optLoop data (c :: rest) bp bs = optLoop data rest c (s : WithBot ℝ)) ∧
    (∀ data : Frame, data.close ≠ [] →
      (∀ c ∈ window_grid, sharpeOf data c = Except.ok none) →
      (optimise_strategy data).2 = Except.ok (0, 0)) := by
  refine ⟨by decide, ?_, ?_, ?_, ?_⟩
  · intro data rest bp c bs hvalid hsh
    simp only [optLoop]
    rw [if_neg (by omega)]
    cases hmet : (calculate_metrics (calc_strategy_performance data c.1 c.2).2).2 with
    | error e =>
      rw [sharpeOf, hmet] at hsh
      simp [Except.map] at hsh
    | ok m =>
      rw [sharpeOf, hmet] at hsh
      have hm : m.sharpe = none := by
        simpa [Except.map] using hsh
      simp only [hmet, hm]
      rfl
  · intro data rest bp c bs s hvalid hsh hlt
    simp only [optLoop]
    rw [if_neg (by omega)]
    cases hmet : (calculate_metrics (calc_strategy_performance data c.1 c.2).2).2 with
    | error e =>
      rw [sharpeOf, hmet] at hsh
      simp [Except.map] at hsh
    | ok m =>
      rw [sharpeOf, hmet] at hsh
      have hm : m.sharpe = some s := by
        simpa [Except.map] using hsh
      simp only [hmet, hm]
      rw [if_neg hlt]
      rfl
  · intro data rest bp c bs s hvalid hsh hlt
    simp only [optLoop]
    rw [if_neg (by omega)]
    cases hmet : (calculate_metrics (calc_strategy_performance data c.1 c.2).2).2 with
    | error e =>
      rw [sharpeOf, hmet] at hsh
      simp [Except.map] at hsh
    | ok m =>
      rw [sharpeOf, hmet] at hsh
      have hm : m.sharpe = some s := by
        simpa [Except.map] using hsh
      simp only [hmet, hm]
      rw [if_pos hlt]
      rfl
  · intro data _ hnan
    rw [optimise_strategy, optLoop_all_nan window_grid data (0, 0) ⊥ hnan]

/-- C5 witness: on the constant series `[1,1,1]` every grid candidate has a
NaN Sharpe (too few defined returns), no candidate ever improves on the
initial incumbent, and the optimiser returns the sentinel `(0, 0)`; the
NaN-keeps-incumbent step is also exercised at the first candidate. -/
theorem c5_optimiser_selection_witness :
    (Frame.ofClose [1, 1, 1]).close ≠ [] ∧
    (∀ c ∈ window_grid, sharpeOf (Frame.ofClose [1, 1, 1]) c = Except.ok none) ∧
    ((10, 100) : ℕ × ℕ).1 < ((10, 100) : ℕ × ℕ).2 ∧
    optLoop (Frame.ofClose [1, 1, 1]) [(10, 100)] (0, 0) ⊥
      = optLoop (Frame.ofClose [1, 1, 1]) [] (0, 0) ⊥ ∧
    (optimise_strategy (Frame.ofClose [1, 1, 1])).2 = Except.ok (0, 0) := by
  have hnan : ∀ c ∈ window_grid, sharpeOf (Frame.ofClose [1, 1, 1]) c = Except.ok none := by
    intro c hc
    have hlb : 100 ≤ c.2 := window_grid_long_lb c hc
    rw [sharpeOf_eq _ _ (by simp)]
    refine congrArg Except.ok (annualised_sharpe_none _ (trivial_fvar _ ?_))
    exact strategyReturn_trivial _ c.1 c.2 (by simp; omega)
  refine ⟨by simp, hnan, by norm_num, ?_, ?_⟩
  · exact c5_optimiser_selection.2.1 (Frame.ofClose [1, 1, 1]) [] (0, 0) (10, 100) ⊥
      (by norm_num) (hnan (10, 100) (by decide))
  · exact c5_optimiser_selection.2.2.2.2 (Frame.ofClose [1, 1, 1]) (by simp) hnan

end AvgMove
